import Mathlib

/-!
Shallow embedding of the apex-web-server repository (src/index.ts, src/lib.ts):
the config reload loop, the schema validator, the plugin-registry
reconciliation, the static-file resolver with range negotiation, the error
translator, and the client-IP classification of the request router.
JavaScript `Map`s are modelled as insertion-ordered association lists,
promise rejections and thrown exceptions as `Except`/`Option`, and the
untyped YAML document tree as an inductive type.
-/

namespace ApexWeb

/-- Insertion-ordered association-list lookup, the model of JS `Map.get`
(first matching key wins; maps built by `mapSet` never hold duplicates). -/
def lookupAssoc {α : Type} : List (String × α) → String → Option α
  | [], _ => none
  | (k, v) :: rest, key => if k = key then some v else lookupAssoc rest key

/-- Model of JS `Map.set`: overwrite the entry in place when the key exists,
append it otherwise. -/
def mapSet {α : Type} : List (String × α) → String → α → List (String × α)
  | [], key, v => [(key, v)]
  | (k, w) :: rest, key, v =>
    if k = key then (k, v) :: rest else (k, w) :: mapSet rest key v

/-- Model of JS `Map.delete`: drop the entry with the given key. -/
def mapDelete {α : Type} (m : List (String × α)) (key : String) : List (String × α) :=
  m.filter (fun p => p.1 ≠ key)

/-- Untyped parsed YAML document tree, the output of `js-yaml`'s `load`
(spec section 1 treats the parser as "parse text → untyped tree"). -/
inductive Yaml where
  | str (s : String)
  | num (n : Int)
  | bool (b : Bool)
  | null
  | seq (xs : List Yaml)
  | map (entries : List (String × Yaml))

/-- Modelled from the spec: `isRecord` is imported from src/lib.ts but not
defined in the sources given; per the spec ("parse to a non-record value",
"mapping-of-strings") a record is a YAML mapping. -/
def Yaml.isRecord : Yaml → Bool
  | .map _ => true
  | _ => false

/-- The typed configuration (src/index.ts lines 12-23). -/
structure Config where
  redirects : List (String × String)
  symlinks : List (String × String)
  httpPort : Int
  httpsPort : Int
  apis : List (String × String)
  headers : List (String × String)
  webDirectory : String
  logHeaders : Bool
  deriving DecidableEq, Repr

/-- The fresh defaults built at the start of every reload tick
(src/index.ts lines 102-111). -/
def defaultConfig : Config :=
  { redirects := []
    symlinks := []
    httpPort := 80
    httpsPort := 443
    apis := []
    headers := []
    webDirectory := "web"
    logHeaders := false }

/-- One string-to-string mapping field of the validator: adopt each entry
whose value is a string, warn and skip the rest (src/index.ts lines 124-129
and the three analogous loops). -/
def adoptStringEntries (entries : List (String × Yaml)) : List (String × String) :=
  entries.foldl
    (fun acc p =>
      match p.2 with
      | .str v => mapSet acc p.1 v
      | _ => acc)
    []

/-- The schema validator applied to a record document: field-by-field
best-effort merge over the defaults (src/index.ts lines 118-210). -/
def validateConfig (doc : List (String × Yaml)) : Config :=
  let cfg := defaultConfig
  let cfg :=
    match lookupAssoc doc "redirects" with
    | some (.map entries) => { cfg with redirects := adoptStringEntries entries }
    | some _ => cfg
    | none => cfg
  let cfg :=
    match lookupAssoc doc "symlinks" with
    | some (.map entries) => { cfg with symlinks := adoptStringEntries entries }
    | some _ => cfg
    | none => cfg
  let cfg :=
    match lookupAssoc doc "httpPort" with
    | some (.num n) => { cfg with httpPort := n }
    | some _ => cfg
    | none => cfg
  let cfg :=
    match lookupAssoc doc "httpsPort" with
    | some (.num n) => { cfg with httpsPort := n }
    | some _ => cfg
    | none => cfg
  let cfg :=
    match lookupAssoc doc "apis" with
    | some (.map entries) => { cfg with apis := adoptStringEntries entries }
    | some _ => cfg
    | none => cfg
  let cfg :=
    match lookupAssoc doc "headers" with
    | some (.map entries) => { cfg with headers := adoptStringEntries entries }
    | some _ => cfg
    | none => cfg
  let cfg :=
    match lookupAssoc doc "webDirectory" with
    | some (.str s) => { cfg with webDirectory := s }
    | some _ => cfg
    | none => cfg
  let cfg :=
    match lookupAssoc doc "logHeaders" with
    | some (.bool b) => { cfg with logHeaders := b }
    | some _ => cfg
    | none => cfg
  cfg

/-- The configuration produced from one parse attempt: `parseResult = none`
models `parseYAML` throwing a `YAMLException` (so `configTemp` stays
undefined). The code first overwrites `config` with fresh defaults
(lines 102-111), then returns those defaults when `configTemp` is not a
record (lines 113-116), else runs the field merge. -/
def applyParsedConfig (parseResult : Option Yaml) : Config :=
  match parseResult with
  | none => defaultConfig
  | some doc =>
    match doc with
    | .map entries => validateConfig entries
    | _ => defaultConfig

/-- One tick of `loadConfigLoop` after a successful `stat`
(src/index.ts lines 81-235, config part): when the file's mtime differs
from `configFileLastUpdated` (initially `NaN`, modelled `none`), the file
is re-parsed and the config rebuilt from defaults; otherwise nothing
happens. Returns the config in effect after the tick and the new
`configFileLastUpdated`. -/
def loadConfigTick (configFileLastUpdated : Option Int) (mtime : Int)
    (prev : Config) (parseResult : Option Yaml) : Config × Option Int :=
  if configFileLastUpdated ≠ some mtime then
    (applyParsedConfig parseResult, some mtime)
  else
    (prev, configFileLastUpdated)

/-- Filesystem error codes used by the server. -/
inductive Errno where
  | ENOENT
  | ENOTDIR
  | EISDIR
  | other
  deriving DecidableEq, Repr

/-- The first run of `loadConfigLoop` (src/index.ts line 81): `stat` of a
missing config file rejects, and the rejection is uncaught, so the whole
`loadConfigLoop` promise rejects; only when `stat` succeeds does the tick
run (with `configFileLastUpdated = NaN`, so the branch is always taken). -/
def loadConfigFirst (statResult : Except Errno Int) (parseResult : Option Yaml) :
    Except Errno Config :=
  match statResult with
  | .error e => .error e
  | .ok mtime => .ok (loadConfigTick none mtime defaultConfig parseResult).1

/-- Which listeners the startup IIFE creates (src/index.ts lines 40-76). -/
inductive ServerMode where
  | httpsWithRedirect (httpPort httpsPort : Int)
  | plainHttp (httpPort : Int)
  deriving DecidableEq, Repr

/-- The startup IIFE (src/index.ts lines 40-76): TLS files are read with a
`.catch` producing the empty string, then `loadConfigLoop` is awaited in the
same `Promise.all`; if it rejects, the `await` throws and no listener is
ever created. With both TLS strings nonempty an HTTPS server plus an HTTP
redirect server start, else a plain HTTP server on `config.httpPort`. -/
def startup (key cert : String) (statResult : Except Errno Int)
    (parseResult : Option Yaml) : Except Errno ServerMode :=
  match loadConfigFirst statResult parseResult with
  | .error e => .error e
  | .ok cfg =>
    if key ≠ "" ∧ cert ≠ "" then
      .ok (.httpsWithRedirect cfg.httpPort cfg.httpsPort)
    else
      .ok (.plainHttp cfg.httpPort)

/-- Split a character list on a separator character, keeping empty pieces,
the model of JS `String.prototype.split` with a one-character separator. -/
def splitOnChar (sep : Char) : List Char → List (List Char)
  | [] => [[]]
  | c :: rest =>
    match splitOnChar sep rest with
    | [] => [[]]
    | piece :: pieces =>
      if c = sep then [] :: piece :: pieces else (c :: piece) :: pieces

/-- Remove the first occurrence of a substring, the model of JS
`String.prototype.replace` with a non-global literal pattern and an empty
replacement. -/
def removeFirstSub (pat : List Char) : List Char → List Char
  | [] => []
  | c :: rest =>
    if List.isPrefixOf pat (c :: rest) then (c :: rest).drop pat.length
    else c :: removeFirstSub pat rest

/-- Delete every (non-overlapping, left-to-right) occurrence of `..`, the
model of `url.replace(/\.\./g, "")` used by the repository's other server
variants and described by the spec as the traversal defense. -/
def stripDotDotChars : List Char → List Char
  | [] => []
  | '.' :: '.' :: rest => stripDotDotChars rest
  | c :: rest => c :: stripDotDotChars rest

/-- String wrapper for `stripDotDotChars`. -/
def stripDotDot (s : String) : String := ⟨stripDotDotChars s.data⟩

/-- The directory string computed for a GET (src/index.ts lines 307-315):
start from the symlink alias of the host (or the host itself), append the
raw request URL (`/` when empty), and append `index.html` after a trailing
slash. The current code appends `request.url` verbatim — no `..` stripping
and no URL parsing happen here. -/
def computeDir (cfg : Config) (host : String) (url : String) : String :=
  let dir := match lookupAssoc cfg.symlinks host with
    | some ali => ali
    | none => host
  let dir := dir ++ (if url = "" then "/" else url)
  if dir.takeRight 1 = "/" then dir ++ "index.html" else dir

/-- The same computation with the spec's claimed defense applied to the URL
(every `..` sequence deleted before appending), used only to compare the
code's behavior against the claim. -/
def computeDirClaimStripped (cfg : Config) (host : String) (url : String) : String :=
  let stripped := stripDotDot url
  let dir := match lookupAssoc cfg.symlinks host with
    | some ali => ali
    | none => host
  let dir := dir ++ (if stripped = "" then "/" else stripped)
  if dir.takeRight 1 = "/" then dir ++ "index.html" else dir

/-- The path's slash-separated segments, dropping empty segments and `.`,
the first half of POSIX `path.resolve` semantics. -/
def pathSegments (s : String) : List String :=
  ((splitOnChar '/' s.data).map (fun cs => String.mk cs)).filter
    (fun seg => seg ≠ "" ∧ seg ≠ ".")

/-- Normalize a segment list by resolving `..` against the segments to its
left, clamping at the root, the second half of POSIX `path.resolve`
semantics. -/
def normSegs (segs : List String) : List String :=
  segs.foldl (fun acc seg => if seg = ".." then acc.dropLast else acc ++ [seg]) []

/-- The filesystem path produced by `resolvePath(config.webDirectory, dir)`
(src/index.ts line 318), as a normalized segment list relative to the
process working directory (taken as the root). -/
def resolvedPath (webDirectory dir : String) : List String :=
  normSegs (pathSegments webDirectory ++ pathSegments dir)

/-- The leading decimal digits of a character list. -/
def leadingDigits : List Char → List Char
  | [] => []
  | c :: rest => if c.isDigit then c :: leadingDigits rest else []

/-- Numeric value of a digit list. -/
def digitsVal (ds : List Char) : Nat :=
  ds.foldl (fun acc c => acc * 10 + (c.toNat - 48)) 0

/-- Model of JS `parseInt` on the pieces produced by splitting the Range
header on `-`: such a piece never holds a sign, so `parseInt` reads the
leading digits and yields `NaN` (here `none`) when there are none —
including on the `undefined` produced by destructuring a missing piece. -/
def parseIntPiece (piece : Option (List Char)) : Option Nat :=
  match piece with
  | none => none
  | some cs =>
    match leadingDigits cs with
    | [] => none
    | ds => some (digitsVal ds)

/-- First phase of the range negotiation (src/index.ts line 332-335):
`range.replace(/bytes=/, "").split("-")`, then `parseInt` on the first two
pieces (`none` models `NaN`). -/
def parseRangeHeader (range : String) : Option Nat × Option Nat :=
  let pieces := splitOnChar '-' (removeFirstSub "bytes=".data range.data)
  (parseIntPiece (pieces.get? 0), parseIntPiece (pieces.get? 1))

/-- Second phase (src/index.ts lines 337-338): a `NaN` end becomes
`size - 1`; a `NaN` start becomes `size - end` (with the already-defaulted
end). Both bounds are signed because `size - end` can be negative. -/
def applyRangeDefaults (size : Nat) (bounds : Option Nat × Option Nat) : Int × Int :=
  let e : Int := match bounds.2 with
    | none => (size : Int) - 1
    | some e => e
  let s : Int := match bounds.1 with
    | none => (size : Int) - e
    | some s => s
  (s, e)

/-- The byte range the server computes for a Range header on a file of the
given size (src/index.ts lines 332-341). -/
def negotiateRange (size : Nat) (range : String) : Int × Int :=
  applyRangeDefaults size (parseRangeHeader range)

/-- A static-file response: status, the range-specific headers, the
Content-Length value the code writes, and the bytes streamed. -/
structure FileResponse where
  status : Nat
  contentRange : Option String
  acceptRanges : Option String
  contentLength : Int
  body : List Nat
  deriving DecidableEq, Repr

/-- The bytes `createReadStream(path, { start, end })` emits: positions
`start` through `end` inclusive (empty when the range is empty or starts
past the data; invalid negative bounds are not modelled further — the
claims never reach them). -/
def streamBytes (content : List Nat) (s e : Int) : List Nat :=
  if s < 0 ∨ e < s then []
  else (content.drop s.toNat).take (e - s + 1).toNat

/-- Serving an existing regular file (src/index.ts lines 321-355): with a
Range header, a 206 with `Content-Range`, `Accept-Ranges` and
`Content-Length = end - start + 1`, streaming only that range; without one,
a 200 with the whole file. -/
def serveFile (content : List Nat) (range : Option String) : FileResponse :=
  let size := content.length
  match range with
  | some r =>
    let bounds := negotiateRange size r
    { status := 206
      contentRange := some ("bytes " ++ toString bounds.1 ++ "-" ++ toString bounds.2
        ++ "/" ++ toString size)
      acceptRanges := some "bytes"
      contentLength := bounds.2 - bounds.1 + 1
      body := streamBytes content bounds.1 bounds.2 }
  | none =>
    { status := 200
      contentRange := none
      acceptRanges := none
      contentLength := (size : Int)
      body := content }

/-- An error-page response: status, Content-Type and body text. -/
structure ErrResponse where
  status : Nat
  contentType : String
  body : String
  deriving DecidableEq, Repr

/-- The ENOENT translation (src/index.ts lines 370-375):
`readFile("meta/404.html").catch(() => "").then(ok, err)`. `readResult`
is the outcome of the `readFile`; the `.catch` turns a rejection into the
empty string, after which the promise is already fulfilled, so the second
`.then` handler (the `text/plain` "404 not found" fallback) can only fire
if the fulfilled chain itself rejected — which it never does. -/
def respond404 (readResult : Except Unit String) : ErrResponse :=
  let caught : Except Unit String :=
    match readResult with
    | .error _ => .ok ""
    | .ok value => .ok value
  match caught with
  | .ok value => { status := 404, contentType := "text/html", body := value }
  | .error _ => { status := 404, contentType := "text/plain", body := "404 not found" }

/-- The default-errno translation (src/index.ts lines 398-401):
`readFile("web/_status/500.html").then(ok, err)` — here there is no
`.catch`, so an unreadable page reaches the plaintext fallback, which
appends the error's stack only for a classified-local connection. -/
def respond500 (readResult : Except Unit String) (isLocalConnection : Bool)
    (stack : String) : ErrResponse :=
  match readResult with
  | .ok value => { status := 500, contentType := "text/html", body := value }
  | .error _ =>
    { status := 500
      contentType := "text/plain"
      body := "500 internal server error"
        ++ (if isLocalConnection then "\n" ++ stack else "") }

/-- An IPv4 address (the external `ipaddr.js` is modelled on dotted-quad
IPv4 addresses; `ipaddr.process` throws on anything that parses as
neither IPv4 nor IPv6). -/
structure IPv4 where
  a : Nat
  b : Nat
  c : Nat
  d : Nat
  deriving DecidableEq, Repr

/-- One dotted-quad piece: all digits, nonempty, value at most 255. -/
def parseOctet (cs : List Char) : Option Nat :=
  if cs ≠ [] ∧ cs.all Char.isDigit ∧ digitsVal cs ≤ 255 then some (digitsVal cs)
  else none

/-- Model of `ipaddr.process` restricted to dotted-quad IPv4: `none` models
the parse error the library throws on a malformed address. -/
def parseIPv4 (s : String) : Option IPv4 :=
  match splitOnChar '.' s.data with
  | [p1, p2, p3, p4] =>
    match parseOctet p1, parseOctet p2, parseOctet p3, parseOctet p4 with
    | some a, some b, some c, some d => some ⟨a, b, c, d⟩
    | _, _, _, _ => none
  | _ => none

/-- Model of `ipaddr.js`'s `range()` for IPv4: loopback 127/8, private
10/8, 172.16/12 and 192.168/16, everything else reported as unicast. -/
def ipv4Range (ip : IPv4) : String :=
  if ip.a = 127 then "loopback"
  else if ip.a = 10 then "private"
  else if ip.a = 172 ∧ 16 ≤ ip.b ∧ ip.b ≤ 31 then "private"
  else if ip.a = 192 ∧ ip.b = 168 then "private"
  else "unicast"

/-- A request header value as Node delivers it: a string, or an array of
strings for the few headers Node keeps as arrays. -/
inductive HeaderValue where
  | str (s : String)
  | strs (vs : List String)
  deriving DecidableEq, Repr

/-- Client-IP classification (src/index.ts lines 268-289), run before any
logging or response writing: parse the socket peer address; when its range
is private or loopback and an `x-real-ip` header is present, `assert` that
the header is a string (throwing `AssertError` otherwise, src/lib.ts lines
86-89) and parse it with the unguarded `ipaddr.process`, which throws on a
malformed value; `.error` models the synchronous throw escaping
`processRequest` with no response written. -/
def classifyClient (socketAddress : String) (xRealIP : Option HeaderValue) :
    Except String (IPv4 × Bool) :=
  match parseIPv4 socketAddress with
  | none => .error "ipaddr: the address has neither IPv6 nor IPv4 format"
  | some sock =>
    let socketIPRange := ipv4Range sock
    if socketIPRange = "private" ∨ socketIPRange = "loopback" then
      match xRealIP with
      | some (.strs _) => .error "\"X-Real-IP\" header was not a string"
      | some (.str s) =>
        match parseIPv4 s with
        | none => .error "ipaddr: the address has neither IPv6 nor IPv4 format"
        | some real => .ok (real, ipv4Range real = "private")
      | none => .ok (sock, true)
    else
      .ok (sock, false)

/-- A JSON-serializable value (src/lib.ts line 91, `JSONValue`). -/
inductive JSONValue where
  | str (s : String)
  | num (n : Int)
  | bool (b : Bool)
  | null
  | arr (xs : List JSONValue)
  | obj (fields : List (String × JSONValue))

/-- JSON escaping for one character (the escapes relevant here). -/
def escapeJSONChar (c : Char) : List Char :=
  if c = '"' then ['\\', '"']
  else if c = '\\' then ['\\', '\\']
  else if c = '\n' then ['\\', 'n']
  else if c = '\t' then ['\\', 't']
  else if c = '\r' then ['\\', 'r']
  else [c]

/-- JSON escaping for a string. -/
def escapeJSONString (s : String) : String :=
  ⟨s.data.foldr (fun c acc => escapeJSONChar c ++ acc) []⟩

mutual

/-- Model of `JSON.stringify` on a `JSONValue`. -/
def jsonStringify : JSONValue → String
  | .str s => "\"" ++ escapeJSONString s ++ "\""
  | .num n => toString n
  | .bool b => if b then "true" else "false"
  | .null => "null"
  | .arr xs => "[" ++ jsonStringifyElems xs ++ "]"
  | .obj fields => "\x7b" ++ jsonStringifyFields fields ++ "\x7d"

/-- Comma-joined serialization of array elements. -/
def jsonStringifyElems : List JSONValue → String
  | [] => ""
  | [x] => jsonStringify x
  | x :: y :: rest => jsonStringify x ++ "," ++ jsonStringifyElems (y :: rest)

/-- Comma-joined serialization of object fields. -/
def jsonStringifyFields : List (String × JSONValue) → String
  | [] => ""
  | [(k, v)] => "\"" ++ escapeJSONString k ++ "\":" ++ jsonStringify v
  | (k, v) :: p :: rest =>
    "\"" ++ escapeJSONString k ++ "\":" ++ jsonStringify v ++ ","
      ++ jsonStringifyFields (p :: rest)

end

/-- What handler function a registry entry holds: the module's exported
`onPost`, or the fixed fallback installed when the module fails to load
(src/index.ts lines 243-255). -/
inductive HandlerSpec where
  | onPost (moduleName : String)
  | fallback
  deriving DecidableEq, Repr

/-- A `loadedModules` entry (src/index.ts line 31). -/
structure ModuleEntry where
  name : String
  api : HandlerSpec
  deriving DecidableEq, Repr

/-- The `loadedModules` map. -/
abbrev Registry := List (String × ModuleEntry)

/-- The runtime behavior of one handler invocation
`module.api(data, { isLocalConnection, ip, config })`: a synchronous
throw, a returned promise that rejects, or a resolved JSON value. -/
inductive HandlerOutcome where
  | throws
  | rejects
  | returns (v : JSONValue)

/-- Literal body for a route with no registry entry (src/index.ts line 417). -/
def noApiBody : String := "\x7b\"ok\":false,\"msg\":\"no api on this url\"\x7d"

/-- Literal body for a failed handler invocation (src/index.ts lines 427, 435). -/
def internalErrorBody : String := "\x7b\"ok\":false,\"msg\":\"internal server error\"\x7d"

/-- Running a found handler (src/index.ts lines 421-437): the `try`/`catch`
around the call, then `Promise.resolve(returnValue).then(JSON.stringify)`
with a rejection handler; either failure ends the response with the
internal-error body, success ends it with the serialized value. -/
def runHandler (outcome : HandlerOutcome) : String :=
  let tryCall : Except Unit HandlerOutcome :=
    match outcome with
    | .throws => .error ()
    | o => .ok o
  match tryCall with
  | .error _ => internalErrorBody
  | .ok o =>
    let promise : Except Unit String :=
      match o with
      | .returns v => .ok (jsonStringify v)
      | _ => .error ()
    match promise with
    | .ok json => json
    | .error _ => internalErrorBody

/-- The POST branch after the body has been accumulated (src/index.ts
lines 413-438): look `host+path` up in `loadedModules` and answer with the
fixed body or the handler's result. `invoke` gives each handler's runtime
behavior on this request. -/
def handlePost (registry : Registry) (url : String)
    (invoke : HandlerSpec → HandlerOutcome) : String :=
  match lookupAssoc registry url with
  | none => noApiBody
  | some entry => runHandler (invoke entry.api)

/-- The outcome of the dynamic module load (src/index.ts lines 243-255):
the module resolves and exports a function `onPost`, resolves without
one, or the load itself rejects. -/
inductive LoadOutcome where
  | exportsOnPostFunction
  | exportsNonFunction
  | importRejects
  deriving DecidableEq, Repr

/-- `loadModule` (src/index.ts lines 240-257): store the module name plus
either its `onPost` or the fixed failure-payload fallback. -/
def loadModule (env : String → LoadOutcome) (reg : Registry) (url name : String) :
    Registry :=
  mapSet reg url
    { name := name
      api :=
        match env name with
        | .exportsOnPostFunction => .onPost name
        | .exportsNonFunction => .fallback
        | .importRejects => .fallback }

/-- The load half of the reconciliation loop (src/index.ts lines 214-221):
walk `config.apis` in order; a route with no entry, or whose entry's module
name changed, is (re)loaded; also returns the list of routes loaded. -/
def reconcileLoads (env : String → LoadOutcome) :
    List (String × String) → Registry → Registry × List String
  | [], reg => (reg, [])
  | (url, name) :: rest, reg =>
    match lookupAssoc reg url with
    | some m =>
      if m.name = name then reconcileLoads env rest reg
      else
        let r := reconcileLoads env rest (loadModule env reg url name)
        (r.1, url :: r.2)
    | none =>
      let r := reconcileLoads env rest (loadModule env reg url name)
      (r.1, url :: r.2)

/-- The keys of an association list. -/
def keysOf {α : Type} (m : List (String × α)) : List String := m.map Prod.fst

/-- Result of one reconciliation pass: the new registry, the routes for
which `loadModule` ran, and the routes unloaded. -/
structure ReconcileResult where
  registry : Registry
  loaded : List String
  removed : List String
  deriving DecidableEq, Repr

/-- The spec's description of the routes to add: present now and either
absent before or present with a changed module name (spec section 4.3). -/
def needsLoad (reg : Registry) (p : String × String) : Bool :=
  match lookupAssoc reg p.1 with
  | none => true
  | some m => m.name != p.2

/-- The full reconciliation (src/index.ts lines 212-226): `toUnload` starts
as the registry's key set and every key of `config.apis` is removed from it
during the loop, so it ends as the registry keys absent from `apis`; those
entries are then deleted after the load loop. -/
def reconcile (env : String → LoadOutcome) (apis : List (String × String))
    (reg : Registry) : ReconcileResult :=
  let toUnload := (keysOf reg).filter (fun k => !(keysOf apis).contains k)
  let r := reconcileLoads env apis reg
  { registry := toUnload.foldl mapDelete r.1
    loaded := r.2
    removed := toUnload }

/-! Helper lemmas about the association-list model of JS `Map`. -/

theorem lookupAssoc_mapSet {α : Type} (m : List (String × α)) (u k : String) (v : α) :
    lookupAssoc (mapSet m u v) k = if u = k then some v else lookupAssoc m k := by
  induction m with
  | nil => simp [mapSet, lookupAssoc]
  | cons p rest ih =>
    obtain ⟨pk, pv⟩ := p
    by_cases hpu : pk = u
    · subst hpu
      by_cases hk : pk = k <;> simp [mapSet, lookupAssoc, hk]
    · by_cases hk : pk = k
      · subst hk
        have : ¬ u = pk := fun h => hpu h.symm
        simp [mapSet, lookupAssoc, hpu, this]
      · simp [mapSet, lookupAssoc, hpu, hk, ih]

theorem lookupAssoc_mapDelete {α : Type} (m : List (String × α)) (u k : String) :
    lookupAssoc (mapDelete m u) k = if u = k then none else lookupAssoc m k := by
  induction m with
  | nil => simp [mapDelete, lookupAssoc]
  | cons p rest ih =>
    obtain ⟨pk, pv⟩ := p
    by_cases hpu : pk = u
    · subst hpu
      have hstep : mapDelete ((pk, pv) :: rest) pk = mapDelete rest pk := by
        simp [mapDelete]
      rw [hstep, ih]
      by_cases hk : pk = k
      · simp [hk]
      · simp only [lookupAssoc, hk, if_neg hk, if_false]
    · have hstep : mapDelete ((pk, pv) :: rest) u = (pk, pv) :: mapDelete rest u := by
        simp [mapDelete, hpu]
      rw [hstep]
      by_cases hk : pk = k
      · subst hk
        have huk : ¬ u = pk := fun h => hpu h.symm
        simp [lookupAssoc, huk]
      · simp only [lookupAssoc, if_neg hk, ih]

theorem lookupAssoc_eq_none_iff {α : Type} (m : List (String × α)) (k : String) :
    lookupAssoc m k = none ↔ k ∉ keysOf m := by
  induction m with
  | nil => simp [lookupAssoc, keysOf]
  | cons p rest ih =>
    obtain ⟨pk, pv⟩ := p
    have hmem : k ∈ keysOf ((pk, pv) :: rest) ↔ (pk = k ∨ k ∈ keysOf rest) := by
      simp only [keysOf, List.map_cons, List.mem_cons]
      constructor
      · rintro (h | h)
        · exact Or.inl h.symm
        · exact Or.inr h
      · rintro (h | h)
        · exact Or.inl h.symm
        · exact Or.inr h
    by_cases hk : pk = k
    · subst hk
      simp [lookupAssoc, hmem]
    · rw [show lookupAssoc ((pk, pv) :: rest) k = lookupAssoc rest k from by
        simp only [lookupAssoc, if_neg hk]]
      rw [ih]
      constructor
      · intro h hin
        rcases hmem.mp hin with h1 | h2
        · exact hk h1
        · exact h h2
      · intro h hin
        exact h (hmem.mpr (Or.inr hin))

theorem lookupAssoc_mem {α : Type} {m : List (String × α)} {k : String} {v : α}
    (h : lookupAssoc m k = some v) : (k, v) ∈ m := by
  induction m with
  | nil => simp [lookupAssoc] at h
  | cons p rest ih =>
    obtain ⟨pk, pv⟩ := p
    by_cases hk : pk = k
    · subst hk
      simp [lookupAssoc] at h
      simp [h]
    · simp only [lookupAssoc, if_neg hk] at h
      exact List.mem_cons_of_mem _ (ih h)

theorem lookupAssoc_of_mem_nodup {α : Type} {m : List (String × α)} {k : String} {v : α}
    (hnd : (keysOf m).Nodup) (hmem : (k, v) ∈ m) : lookupAssoc m k = some v := by
  induction m with
  | nil => simp at hmem
  | cons p rest ih =>
    obtain ⟨pk, pv⟩ := p
    have hnd' : pk ∉ keysOf rest ∧ (keysOf rest).Nodup := List.nodup_cons.mp hnd
    rcases List.mem_cons.mp hmem with heq | htail
    · have h1 : k = pk := congrArg Prod.fst heq
      have h2 : v = pv := congrArg Prod.snd heq
      subst h1
      subst h2
      simp [lookupAssoc]
    · have hk : pk ≠ k := by
        intro h
        subst h
        exact hnd'.1 (List.mem_map.mpr ⟨(pk, v), htail, rfl⟩)
      simp only [lookupAssoc, if_neg hk]
      exact ih hnd'.2 htail

theorem lookupAssoc_foldl_mapDelete {α : Type} (urls : List String)
    (m : List (String × α)) (k : String) :
    lookupAssoc (urls.foldl mapDelete m) k =
      if k ∈ urls then none else lookupAssoc m k := by
  induction urls generalizing m with
  | nil => simp
  | cons u urls ih =>
    rw [List.foldl_cons, ih, lookupAssoc_mapDelete]
    by_cases hku : k = u
    · subst hku
      simp
    · by_cases hmem : k ∈ urls
      · simp [hmem]
      · have hnc : k ∉ u :: urls := by
          intro h
          rcases List.mem_cons.mp h with h1 | h2
          · exact hku h1
          · exact hmem h2
        rw [if_neg hmem, if_neg (fun h : u = k => hku h.symm), if_neg hnc]

/-! Claim C1: the config in effect after a failed-parse reload tick. -/

/-- C1, as stated, is false: in a tick whose mtime changed (`some 1` to
mtime `2`) and whose contents fail to parse (`none`), the configuration in
effect afterwards is not the previously active one — a previous config with
`httpPort = 8080` comes out with `httpPort = 80`. -/
theorem C1_counterexample :
    (loadConfigTick (some 1) 2 { defaultConfig with httpPort := 8080 } none).1 ≠
      { defaultConfig with httpPort := 8080 } := by
  decide

/-- C1 amended: for every reload tick in which the mtime changed but the
contents fail to parse as YAML or parse to a non-record value, the
configuration in effect after the tick is the freshly built all-defaults
configuration — the previous configuration is discarded, not retained
(though no partially parsed field is adopted either). -/
theorem C1_parse_failure_resets_to_defaults (lastUpdated : Option Int) (mtime : Int)
    (prev : Config) (parseResult : Option Yaml)
    (hchanged : lastUpdated ≠ some mtime)
    (hfail : parseResult = none ∨ ∃ doc, parseResult = some doc ∧ doc.isRecord = false) :
    (loadConfigTick lastUpdated mtime prev parseResult).1 = defaultConfig := by
  simp only [loadConfigTick]
  rw [if_pos hchanged]
  rcases hfail with h | ⟨doc, hdoc, hrec⟩
  · rw [h]
    rfl
  · rw [hdoc]
    cases doc <;> first | rfl | simp [Yaml.isRecord] at hrec

/-- Witness for C1's amended theorem at a concrete tick. -/
theorem C1_witness :
    (some 1 : Option Int) ≠ some 2 ∧
    (loadConfigTick (some 1) 2 { defaultConfig with httpPort := 8080 } none).1 =
      defaultConfig :=
  ⟨by decide,
    C1_parse_failure_resets_to_defaults (some 1) 2 { defaultConfig with httpPort := 8080 }
      none (by decide) (Or.inl rfl)⟩

/-! Claim C2: GET path traversal. -/

/-- C2 is false on the current code: `processRequest` appends the raw
request URL with no `..` stripping (src/index.ts line 312), so for host
`example.com`, URL `/../../secret.txt` and the default `webDirectory`
(`web`), the resolved path is `secret.txt` at the process working
directory — outside `webDirectory`, and different from the path the same
request resolves to after deleting the `..` sequences
(`web/example.com/secret.txt`). -/
theorem C2_dotdot_not_stripped_escapes_webDirectory :
    computeDir defaultConfig "example.com" "/../../secret.txt" =
      "example.com/../../secret.txt" ∧
    resolvedPath defaultConfig.webDirectory
        (computeDir defaultConfig "example.com" "/../../secret.txt") = ["secret.txt"] ∧
    List.isPrefixOf (resolvedPath defaultConfig.webDirectory "")
        (resolvedPath defaultConfig.webDirectory
          (computeDir defaultConfig "example.com" "/../../secret.txt")) = false ∧
    resolvedPath defaultConfig.webDirectory
        (computeDirClaimStripped defaultConfig "example.com" "/../../secret.txt") =
      ["web", "example.com", "secret.txt"] := by
  exact ⟨by decide, by decide, by decide, by decide⟩

/-! Claim C3: range bounds when one end of the Range header is absent. -/

/-- C3's first half holds (`bytes=500-` on size 300 gives the range
`[500, 299]`, i.e. `[start, S-1]`), but its second half is false: for
`bytes=-100` on a file of size 300 the code computes start `S - end = 200`
and keeps the parsed end `100`, producing the range `[200, 100]` — not the
last 100 bytes `[200, 299]` the claim (and HTTP suffix-range semantics)
describe. -/
theorem C3_suffix_range_end_not_adjusted :
    negotiateRange 300 "bytes=500-" = (500, 299) ∧
    negotiateRange 300 "bytes=-100" = (200, 100) ∧
    negotiateRange 300 "bytes=-100" ≠ (200, 299) := by
  exact ⟨by decide, by decide, by decide⟩

/-! Claim C4: the 404 body when the configured page is unreadable. -/

set_option maxRecDepth 4000 in
/-- C4's readable half holds (the page contents are served), but on an
unreadable `meta/404.html` the claim is false: the `.catch` producing `""`
leaves the promise fulfilled, so the `text/plain` "404 not found" rejection
handler is unreachable and the response is a 404 with `text/html` and an
empty body. -/
theorem C4_unreadable_404_page_yields_empty_html_body :
    respond404 (Except.error ()) =
      { status := 404, contentType := "text/html", body := "" } ∧
    respond404 (Except.error ()) ≠
      { status := 404, contentType := "text/plain", body := "404 not found" } ∧
    (∀ page, respond404 (Except.ok page) =
      { status := 404, contentType := "text/html", body := page }) :=
  ⟨rfl, by decide, fun _ => rfl⟩

/-! Claim C5: a missing config file on first load. -/

/-- C5, as stated, is false: with no TLS material and a missing config file
(`stat` rejects with ENOENT before any parse is attempted), startup does
not complete and no plaintext server on port 80 is started — the awaited
`loadConfigLoop` promise rejects with the stat error. -/
theorem C5_counterexample :
    startup "" "" (Except.error Errno.ENOENT) none = Except.error Errno.ENOENT ∧
    startup "" "" (Except.error Errno.ENOENT) none ≠
      Except.ok (ServerMode.plainHttp 80) :=
  ⟨rfl, fun h => Except.noConfusion h⟩

/-- C5 amended: a missing config file is fatal on first load — the
unguarded `stat` rejection propagates out of `loadConfigLoop` and through
the startup `Promise.all`, so the server never starts. Only a config file
that exists but fails to parse is non-fatal: then the all-defaults
configuration is adopted and, with TLS materials absent, a plaintext
server starts on the default HTTP port 80. -/
theorem C5_missing_config_file_is_fatal (key cert : String)
    (parseResult : Option Yaml) (e : Errno) (mtime : Int) :
    loadConfigFirst (Except.error e) parseResult = Except.error e ∧
    startup key cert (Except.error e) parseResult = Except.error e ∧
    startup "" "" (Except.ok mtime) none = Except.ok (ServerMode.plainHttp 80) := by
  refine ⟨rfl, rfl, ?_⟩
  simp only [startup, loadConfigFirst, loadConfigTick, applyParsedConfig]
  rw [if_pos (fun h => Option.noConfusion h)]
  norm_num [defaultConfig]

/-! Claim C6: POST response bodies. -/

/-- C6 holds: a POST to a route with no registry entry gets exactly the
"no api on this url" envelope; a handler that throws synchronously or
returns a rejecting promise gets exactly the "internal server error"
envelope; otherwise the body is exactly the JSON serialization of the
resolved return value. -/
theorem C6_post_body_envelope (registry : Registry) (url : String)
    (invoke : HandlerSpec → HandlerOutcome) :
    (lookupAssoc registry url = none →
      handlePost registry url invoke = "\x7b\"ok\":false,\"msg\":\"no api on this url\"\x7d") ∧
    (∀ entry, lookupAssoc registry url = some entry →
      ((invoke entry.api = .throws ∨ invoke entry.api = .rejects) →
        handlePost registry url invoke =
          "\x7b\"ok\":false,\"msg\":\"internal server error\"\x7d") ∧
      (∀ v, invoke entry.api = .returns v →
        handlePost registry url invoke = jsonStringify v)) := by
  constructor
  · intro h
    simp [handlePost, h, noApiBody]
  · intro entry h
    constructor
    · rintro (ho | ho) <;> simp [handlePost, h, runHandler, ho, internalErrorBody]
    · intro v ho
      simp [handlePost, h, runHandler, ho]

/-- Witness for C6 at a concrete registry, route and handler outcome. -/
theorem C6_witness :
    handlePost [("samual.uk/", ModuleEntry.mk "api-mod" (HandlerSpec.onPost "api-mod"))]
        "samual.uk/"
        (fun _ => HandlerOutcome.returns (JSONValue.obj [("ok", JSONValue.bool true)])) =
      "\x7b\"ok\":true\x7d" := by
  have h :=
    ((C6_post_body_envelope
        [("samual.uk/", ModuleEntry.mk "api-mod" (HandlerSpec.onPost "api-mod"))]
        "samual.uk/"
        (fun _ => HandlerOutcome.returns (JSONValue.obj [("ok", JSONValue.bool true)]))).2
      (ModuleEntry.mk "api-mod" (HandlerSpec.onPost "api-mod")) (by decide)).2
      (JSONValue.obj [("ok", JSONValue.bool true)]) rfl
  rw [h]
  rfl

/-! Claim C8: a `bytes=0-99` range request. -/

/-- C8 holds: on a file larger than 100 bytes, `Range: bytes=0-99` yields
status 206, `Content-Range: bytes 0-99/S`, `Content-Length` 100, and the
body is exactly the file's first 100 bytes. -/
theorem C8_range_0_99_serves_first_100_bytes (content : List Nat)
    (h : 100 < content.length) :
    serveFile content (some "bytes=0-99") =
      { status := 206
        contentRange := some ("bytes 0-99/" ++ toString content.length)
        acceptRanges := some "bytes"
        contentLength := 100
        body := content.take 100 } ∧
    (serveFile content (some "bytes=0-99")).body.length = 100 := by
  have hneg : negotiateRange content.length "bytes=0-99" = (0, 99) := by
    rw [negotiateRange, show parseRangeHeader "bytes=0-99" = (some 0, some 99) from by decide]
    rfl
  have hmain : serveFile content (some "bytes=0-99") =
      { status := 206
        contentRange := some ("bytes 0-99/" ++ toString content.length)
        acceptRanges := some "bytes"
        contentLength := 100
        body := content.take 100 } := by
    simp only [serveFile, hneg]
    rfl
  refine ⟨hmain, ?_⟩
  rw [hmain]
  show (content.take 100).length = 100
  rw [List.length_take]
  omega

set_option maxRecDepth 10000 in
/-- Witness for C8 on a concrete 150-byte file. -/
theorem C8_witness :
    100 < (List.range 150).length ∧
    serveFile (List.range 150) (some "bytes=0-99") =
      { status := 206
        contentRange := some ("bytes 0-99/" ++ toString (List.range 150).length)
        acceptRanges := some "bytes"
        contentLength := 100
        body := (List.range 150).take 100 } :=
  ⟨by decide, (C8_range_0_99_serves_first_100_bytes (List.range 150) (by decide)).1⟩

/-! Claim C9: no stack traces for remote clients. -/

/-- C9 holds: in the 500 static-file fallback the stack is appended only
when `isLocalConnection` is true, so for a remote client two runs differing
only in the error's stack produce byte-identical responses, while a local
client's fallback body does embed the stack. -/
theorem C9_remote_body_independent_of_stack (page : Except Unit String)
    (stack1 stack2 stack : String) :
    respond500 page false stack1 = respond500 page false stack2 ∧
    (respond500 (Except.error ()) true stack).body =
      "500 internal server error" ++ ("\n" ++ stack) ∧
    (respond500 (Except.error ()) false stack).body = "500 internal server error" := by
  refine ⟨?_, rfl, rfl⟩
  cases page <;> rfl

/-! Claim C10: a malformed `x-real-ip` header from a local peer. -/

/-- C10 holds: when the socket peer address parses to a private- or
loopback-range IP and an `x-real-ip` header is present whose value is not
a string or does not parse as an IP address, the classification step of
`processRequest` throws synchronously (the `assert`, or the unguarded
`ipaddr.process`) — modelled as `.error` — before any logging or response
write, which in the code only happen after this step returns. -/
theorem C10_malformed_real_ip_header_throws (socketAddress : String) (sock : IPv4)
    (hv : HeaderValue)
    (hparse : parseIPv4 socketAddress = some sock)
    (hrange : ipv4Range sock = "private" ∨ ipv4Range sock = "loopback")
    (hbad : ∀ s, hv = .str s → parseIPv4 s = none) :
    ∃ msg, classifyClient socketAddress (some hv) = Except.error msg := by
  have hcond : ipv4Range sock = "private" ∨ ipv4Range sock = "loopback" := hrange
  cases hv with
  | strs vs =>
    refine ⟨"\"X-Real-IP\" header was not a string", ?_⟩
    simp [classifyClient, hparse, hcond]
  | str s =>
    refine ⟨"ipaddr: the address has neither IPv6 nor IPv4 format", ?_⟩
    simp [classifyClient, hparse, hcond, hbad s rfl]

/-- Witness for C10: a loopback peer with a non-IP `x-real-ip` value. -/
theorem C10_witness :
    ∃ msg, classifyClient "127.0.0.1" (some (HeaderValue.str "not-an-ip")) =
      Except.error msg :=
  C10_malformed_real_ip_header_throws "127.0.0.1" ⟨127, 0, 0, 1⟩
    (HeaderValue.str "not-an-ip") (by decide) (Or.inr (by decide))
    (by
      intro s hs
      injection hs with h
      subst h
      decide)

/-! Lemmas about the loading half of the reconciliation loop. -/

theorem lookupAssoc_loadModule_ne (env : String → LoadOutcome) (reg : Registry)
    (url name k : String) (h : url ≠ k) :
    lookupAssoc (loadModule env reg url name) k = lookupAssoc reg k := by
  rw [loadModule, lookupAssoc_mapSet, if_neg h]

theorem reconcileLoads_cons_skip (env : String → LoadOutcome) (url name : String)
    (rest : List (String × String)) (reg : Registry) (m : ModuleEntry)
    (hlook : lookupAssoc reg url = some m) (hname : m.name = name) :
    reconcileLoads env ((url, name) :: rest) reg = reconcileLoads env rest reg := by
  rw [reconcileLoads, hlook]
  simp [hname]

theorem reconcileLoads_cons_changed (env : String → LoadOutcome) (url name : String)
    (rest : List (String × String)) (reg : Registry) (m : ModuleEntry)
    (hlook : lookupAssoc reg url = some m) (hname : ¬ m.name = name) :
    reconcileLoads env ((url, name) :: rest) reg =
      ((reconcileLoads env rest (loadModule env reg url name)).1,
        url :: (reconcileLoads env rest (loadModule env reg url name)).2) := by
  rw [reconcileLoads, hlook]
  simp [hname]

theorem reconcileLoads_cons_new (env : String → LoadOutcome) (url name : String)
    (rest : List (String × String)) (reg : Registry)
    (hlook : lookupAssoc reg url = none) :
    reconcileLoads env ((url, name) :: rest) reg =
      ((reconcileLoads env rest (loadModule env reg url name)).1,
        url :: (reconcileLoads env rest (loadModule env reg url name)).2) := by
  rw [reconcileLoads, hlook]

theorem reconcileLoads_lookup_not_mem (env : String → LoadOutcome)
    (apis : List (String × String)) (reg : Registry) (k : String)
    (h : k ∉ keysOf apis) :
    lookupAssoc (reconcileLoads env apis reg).1 k = lookupAssoc reg k := by
  induction apis generalizing reg with
  | nil => rfl
  | cons p rest ih =>
    obtain ⟨url, name⟩ := p
    have hrest : k ∉ keysOf rest := by
      intro hmem
      exact h (List.mem_cons_of_mem _ hmem)
    have hurl : url ≠ k := by
      intro heq
      exact h (heq ▸ List.mem_cons_self _ _)
    cases hlook : lookupAssoc reg url with
    | some m =>
      by_cases hname : m.name = name
      · rw [reconcileLoads_cons_skip env url name rest reg m hlook hname]
        exact ih reg hrest
      · rw [reconcileLoads_cons_changed env url name rest reg m hlook hname]
        rw [ih (loadModule env reg url name) hrest]
        exact lookupAssoc_loadModule_ne env reg url name k hurl
    | none =>
      rw [reconcileLoads_cons_new env url name rest reg hlook]
      rw [ih (loadModule env reg url name) hrest]
      exact lookupAssoc_loadModule_ne env reg url name k hurl

theorem reconcileLoads_loaded_sub (env : String → LoadOutcome)
    (apis : List (String × String)) (reg : Registry) (k : String)
    (h : k ∈ (reconcileLoads env apis reg).2) : k ∈ keysOf apis := by
  induction apis generalizing reg with
  | nil => simp [reconcileLoads] at h
  | cons p rest ih =>
    obtain ⟨url, name⟩ := p
    have hcons : ∀ x, x ∈ keysOf rest → x ∈ keysOf ((url, name) :: rest) :=
      fun x hx => List.mem_cons_of_mem _ hx
    cases hlook : lookupAssoc reg url with
    | some m =>
      by_cases hname : m.name = name
      · rw [reconcileLoads_cons_skip env url name rest reg m hlook hname] at h
        exact hcons k (ih reg h)
      · rw [reconcileLoads_cons_changed env url name rest reg m hlook hname] at h
        rcases List.mem_cons.mp h with h1 | h2
        · exact h1 ▸ List.mem_cons_self _ _
        · exact hcons k (ih _ h2)
    | none =>
      rw [reconcileLoads_cons_new env url name rest reg hlook] at h
      rcases List.mem_cons.mp h with h1 | h2
      · exact h1 ▸ List.mem_cons_self _ _
      · exact hcons k (ih _ h2)

theorem reconcileLoads_lookup_mem (env : String → LoadOutcome)
    (apis : List (String × String)) (reg : Registry) (url name : String)
    (hnd : (keysOf apis).Nodup) (hmem : (url, name) ∈ apis) :
    ∃ m, lookupAssoc (reconcileLoads env apis reg).1 url = some m ∧ m.name = name := by
  induction apis generalizing reg with
  | nil => simp at hmem
  | cons p rest ih =>
    obtain ⟨u, n⟩ := p
    have hnd' : u ∉ keysOf rest ∧ (keysOf rest).Nodup := List.nodup_cons.mp hnd
    rcases List.mem_cons.mp hmem with heq | htail
    · have h1 : url = u := congrArg Prod.fst heq
      have h2 : name = n := congrArg Prod.snd heq
      subst h1
      subst h2
      cases hlook : lookupAssoc reg url with
      | some m =>
        by_cases hname : m.name = name
        · rw [reconcileLoads_cons_skip env url name rest reg m hlook hname]
          refine ⟨m, ?_, hname⟩
          rw [reconcileLoads_lookup_not_mem env rest reg url hnd'.1]
          exact hlook
        · rw [reconcileLoads_cons_changed env url name rest reg m hlook hname]
          refine ⟨{ name := name, api := match env name with
            | .exportsOnPostFunction => .onPost name
            | .exportsNonFunction => .fallback
            | .importRejects => .fallback }, ?_, rfl⟩
          rw [reconcileLoads_lookup_not_mem env rest _ url hnd'.1]
          rw [loadModule, lookupAssoc_mapSet, if_pos rfl]
      | none =>
        rw [reconcileLoads_cons_new env url name rest reg hlook]
        refine ⟨{ name := name, api := match env name with
          | .exportsOnPostFunction => .onPost name
          | .exportsNonFunction => .fallback
          | .importRejects => .fallback }, ?_, rfl⟩
        rw [reconcileLoads_lookup_not_mem env rest _ url hnd'.1]
        rw [loadModule, lookupAssoc_mapSet, if_pos rfl]
    · cases hlook : lookupAssoc reg u with
      | some m =>
        by_cases hname : m.name = n
        · rw [reconcileLoads_cons_skip env u n rest reg m hlook hname]
          exact ih reg hnd'.2 htail
        · rw [reconcileLoads_cons_changed env u n rest reg m hlook hname]
          exact ih _ hnd'.2 htail
      | none =>
        rw [reconcileLoads_cons_new env u n rest reg hlook]
        exact ih _ hnd'.2 htail

theorem reconcileLoads_loaded_eq (env : String → LoadOutcome)
    (apis : List (String × String)) (reg : Registry)
    (hnd : (keysOf apis).Nodup) :
    (reconcileLoads env apis reg).2 = (apis.filter (needsLoad reg)).map Prod.fst := by
  induction apis generalizing reg with
  | nil => rfl
  | cons p rest ih =>
    obtain ⟨url, name⟩ := p
    have hnd' : url ∉ keysOf rest ∧ (keysOf rest).Nodup := List.nodup_cons.mp hnd
    have hfilt : ∀ reg' : Registry,
        (∀ q ∈ rest, lookupAssoc reg' q.1 = lookupAssoc reg q.1) →
        rest.filter (needsLoad reg') = rest.filter (needsLoad reg) := by
      intro reg' hsame
      refine List.filter_congr ?_
      intro q hq
      unfold needsLoad
      rw [hsame q hq]
    have hpres : ∀ q ∈ rest,
        lookupAssoc (loadModule env reg url name) q.1 = lookupAssoc reg q.1 := by
      intro q hq
      refine lookupAssoc_loadModule_ne env reg url name q.1 ?_
      intro heq
      exact hnd'.1 (heq ▸ List.mem_map.mpr ⟨q, hq, rfl⟩)
    cases hlook : lookupAssoc reg url with
    | some m =>
      by_cases hname : m.name = name
      · rw [reconcileLoads_cons_skip env url name rest reg m hlook hname]
        have hno : needsLoad reg (url, name) = false := by
          unfold needsLoad
          rw [hlook]
          simp [hname]
        rw [List.filter_cons, hno]
        simp only [Bool.false_eq_true, if_false]
        exact ih reg hnd'.2
      · rw [reconcileLoads_cons_changed env url name rest reg m hlook hname]
        have hyes : needsLoad reg (url, name) = true := by
          unfold needsLoad
          rw [hlook]
          simp [hname]
        rw [List.filter_cons, hyes]
        simp only [if_true, List.map_cons]
        rw [ih (loadModule env reg url name) hnd'.2, hfilt _ hpres]
    | none =>
      rw [reconcileLoads_cons_new env url name rest reg hlook]
      have hyes : needsLoad reg (url, name) = true := by
        unfold needsLoad
        rw [hlook]
      rw [List.filter_cons, hyes]
      simp only [if_true, List.map_cons]
      rw [ih (loadModule env reg url name) hnd'.2, hfilt _ hpres]

theorem reconcileLoads_noop (env : String → LoadOutcome)
    (apis : List (String × String)) (reg : Registry)
    (h : ∀ p ∈ apis, ∃ m, lookupAssoc reg p.1 = some m ∧ m.name = p.2) :
    reconcileLoads env apis reg = (reg, []) := by
  induction apis with
  | nil => rfl
  | cons p rest ih =>
    obtain ⟨url, name⟩ := p
    obtain ⟨m, hm, hname⟩ := h (url, name) (List.mem_cons_self _ _)
    rw [reconcileLoads_cons_skip env url name rest reg m hm hname]
    exact ih (fun q hq => h q (List.mem_cons_of_mem _ hq))

/-! Lemmas about the full reconciliation pass. -/

theorem mem_toUnload_iff (apis : List (String × String)) (reg : Registry) (k : String) :
    k ∈ (keysOf reg).filter (fun x => !(keysOf apis).contains x) ↔
      (k ∈ keysOf reg ∧ k ∉ keysOf apis) := by
  rw [List.mem_filter]
  simp [List.elem_iff]

theorem reconcile_lookup_not_mem_apis (env : String → LoadOutcome)
    (apis : List (String × String)) (reg : Registry) (k : String)
    (h : k ∉ keysOf apis) :
    lookupAssoc (reconcile env apis reg).registry k = none := by
  rw [reconcile]
  simp only []
  rw [lookupAssoc_foldl_mapDelete]
  by_cases hreg : k ∈ keysOf reg
  · rw [if_pos ((mem_toUnload_iff apis reg k).mpr ⟨hreg, h⟩)]
  · rw [if_neg (fun hin => hreg ((mem_toUnload_iff apis reg k).mp hin).1)]
    rw [reconcileLoads_lookup_not_mem env apis reg k h]
    exact (lookupAssoc_eq_none_iff reg k).mpr hreg

theorem reconcile_lookup_mem_apis (env : String → LoadOutcome)
    (apis : List (String × String)) (reg : Registry) (url name : String)
    (hnd : (keysOf apis).Nodup) (hmem : (url, name) ∈ apis) :
    ∃ m, lookupAssoc (reconcile env apis reg).registry url = some m ∧ m.name = name := by
  obtain ⟨m, hm, hname⟩ := reconcileLoads_lookup_mem env apis reg url name hnd hmem
  refine ⟨m, ?_, hname⟩
  have hin : url ∈ keysOf apis := List.mem_map.mpr ⟨(url, name), hmem, rfl⟩
  rw [reconcile]
  simp only []
  rw [lookupAssoc_foldl_mapDelete,
    if_neg (fun hx => ((mem_toUnload_iff apis reg url).mp hx).2 hin)]
  exact hm

theorem reconcileLoads_preserves_matching (env : String → LoadOutcome)
    (apis : List (String × String)) (reg : Registry) (url : String) (m : ModuleEntry)
    (hnd : (keysOf apis).Nodup) (hmem : (url, m.name) ∈ apis)
    (hlook : lookupAssoc reg url = some m) :
    lookupAssoc (reconcileLoads env apis reg).1 url = some m := by
  induction apis generalizing reg with
  | nil => exact hlook
  | cons p rest ih =>
    obtain ⟨u, n⟩ := p
    have hnd' : u ∉ keysOf rest ∧ (keysOf rest).Nodup := List.nodup_cons.mp hnd
    rcases List.mem_cons.mp hmem with heq | htail
    · have h1 : url = u := congrArg Prod.fst heq
      have h2 : m.name = n := congrArg Prod.snd heq
      subst h1
      rw [reconcileLoads_cons_skip env url n rest reg m hlook h2]
      rw [reconcileLoads_lookup_not_mem env rest reg url hnd'.1]
      exact hlook
    · have hu_ne : u ≠ url := by
        intro heq2
        exact hnd'.1 (heq2 ▸ List.mem_map.mpr ⟨(url, m.name), htail, rfl⟩)
      cases hlooku : lookupAssoc reg u with
      | some mu =>
        by_cases hname : mu.name = n
        · rw [reconcileLoads_cons_skip env u n rest reg mu hlooku hname]
          exact ih reg hnd'.2 htail hlook
        · rw [reconcileLoads_cons_changed env u n rest reg mu hlooku hname]
          refine ih _ hnd'.2 htail ?_
          rw [lookupAssoc_loadModule_ne env reg u n url hu_ne]
          exact hlook
      | none =>
        rw [reconcileLoads_cons_new env u n rest reg hlooku]
        refine ih _ hnd'.2 htail ?_
        rw [lookupAssoc_loadModule_ne env reg u n url hu_ne]
        exact hlook

theorem reconcile_preserves_unchanged (env : String → LoadOutcome)
    (apis : List (String × String)) (reg : Registry) (url : String) (m : ModuleEntry)
    (hnd : (keysOf apis).Nodup)
    (happ : lookupAssoc apis url = some m.name)
    (hlook : lookupAssoc reg url = some m) :
    lookupAssoc (reconcile env apis reg).registry url = some m ∧
    url ∉ (reconcile env apis reg).loaded := by
  have hmem : (url, m.name) ∈ apis := lookupAssoc_mem happ
  have hin : url ∈ keysOf apis := List.mem_map.mpr ⟨(url, m.name), hmem, rfl⟩
  constructor
  · rw [reconcile]
    simp only []
    rw [lookupAssoc_foldl_mapDelete,
      if_neg (fun hx => ((mem_toUnload_iff apis reg url).mp hx).2 hin)]
    exact reconcileLoads_preserves_matching env apis reg url m hnd hmem hlook
  · rw [reconcile]
    simp only []
    rw [reconcileLoads_loaded_eq env apis reg hnd]
    intro hloaded
    obtain ⟨p, hp, hfst⟩ := List.mem_map.mp hloaded
    have hpmem : p ∈ apis := (List.mem_filter.mp hp).1
    have hneeds : needsLoad reg p = true := (List.mem_filter.mp hp).2
    have hpair : (url, p.2) ∈ apis := by
      rw [← hfst]
      exact hpmem
    have hsnd : lookupAssoc apis url = some p.2 := lookupAssoc_of_mem_nodup hnd hpair
    have hp2 : p.2 = m.name := by
      have := hsnd.symm.trans happ
      exact Option.some.inj this
    rw [needsLoad, hfst, hlook, hp2] at hneeds
    simp at hneeds

theorem reconcile_idempotent (env : String → LoadOutcome)
    (apis : List (String × String)) (reg : Registry)
    (hnd : (keysOf apis).Nodup) :
    reconcile env apis (reconcile env apis reg).registry =
      ⟨(reconcile env apis reg).registry, [], []⟩ := by
  have hmemlookup : ∀ p ∈ apis,
      ∃ m, lookupAssoc (reconcile env apis reg).registry p.1 = some m ∧ m.name = p.2 := by
    intro p hp
    exact reconcile_lookup_mem_apis env apis reg p.1 p.2 hnd hp
  have hnoload : reconcileLoads env apis (reconcile env apis reg).registry =
      ((reconcile env apis reg).registry, []) :=
    reconcileLoads_noop env apis (reconcile env apis reg).registry hmemlookup
  have htoUn : (keysOf (reconcile env apis reg).registry).filter
      (fun x => !(keysOf apis).contains x) = [] := by
    rw [List.filter_eq_nil_iff]
    intro k hk
    simp only [Bool.not_eq_true', Bool.not_eq_false]
    rw [List.elem_iff]
    by_contra hnc
    have hnone := reconcile_lookup_not_mem_apis env apis reg k hnc
    exact (lookupAssoc_eq_none_iff _ k).mp hnone hk
  conv_lhs => rw [reconcile]
  rw [htoUn, hnoload]
  rfl

/-! Claim C7: plugin-registry reconciliation. -/

/-- C7 holds for every `apis` mapping with distinct route keys (the `Map`
invariant): the reconciliation loads exactly the routes that are newly
present or whose module name changed, removes exactly the registry entries
whose route is absent from the mapping, leaves entries with an unchanged
module name untouched (no reload of that route), and running it a second
time against the same mapping changes nothing and performs no load and no
unload. -/
theorem C7_reconciliation_exact_and_idempotent (env : String → LoadOutcome)
    (apis : List (String × String)) (reg : Registry)
    (hnd : (keysOf apis).Nodup) :
    (reconcile env apis reg).loaded = (apis.filter (needsLoad reg)).map Prod.fst ∧
    (∀ k, k ∈ (reconcile env apis reg).removed ↔ (k ∈ keysOf reg ∧ k ∉ keysOf apis)) ∧
    (∀ url m, lookupAssoc reg url = some m → lookupAssoc apis url = some m.name →
      lookupAssoc (reconcile env apis reg).registry url = some m ∧
      url ∉ (reconcile env apis reg).loaded) ∧
    reconcile env apis (reconcile env apis reg).registry =
      ⟨(reconcile env apis reg).registry, [], []⟩ := by
  refine ⟨?_, ?_, ?_, reconcile_idempotent env apis reg hnd⟩
  · rw [reconcile]
    simp only []
    exact reconcileLoads_loaded_eq env apis reg hnd
  · intro k
    rw [reconcile]
    simp only []
    exact mem_toUnload_iff apis reg k
  · intro url m h1 h2
    exact reconcile_preserves_unchanged env apis reg url m hnd h2 h1

/-- Witness for C7 at a concrete environment, mapping and registry: one
route unchanged, one newly added, one removed; idempotent second pass. -/
theorem C7_witness :
    (reconcile (fun _ => LoadOutcome.exportsOnPostFunction)
        [("a.com/x", "modA"), ("b.com/y", "modB")]
        [("a.com/x", ModuleEntry.mk "modA" (HandlerSpec.onPost "modA")),
          ("c.com/z", ModuleEntry.mk "modC" (HandlerSpec.onPost "modC"))]).loaded =
      ["b.com/y"] ∧
    reconcile (fun _ => LoadOutcome.exportsOnPostFunction)
        [("a.com/x", "modA"), ("b.com/y", "modB")]
        (reconcile (fun _ => LoadOutcome.exportsOnPostFunction)
          [("a.com/x", "modA"), ("b.com/y", "modB")]
          [("a.com/x", ModuleEntry.mk "modA" (HandlerSpec.onPost "modA")),
            ("c.com/z", ModuleEntry.mk "modC" (HandlerSpec.onPost "modC"))]).registry =
      ⟨(reconcile (fun _ => LoadOutcome.exportsOnPostFunction)
          [("a.com/x", "modA"), ("b.com/y", "modB")]
          [("a.com/x", ModuleEntry.mk "modA" (HandlerSpec.onPost "modA")),
            ("c.com/z", ModuleEntry.mk "modC" (HandlerSpec.onPost "modC"))]).registry,
        [], []⟩ := by
  have h := C7_reconciliation_exact_and_idempotent
    (fun _ => LoadOutcome.exportsOnPostFunction)
    [("a.com/x", "modA"), ("b.com/y", "modB")]
    [("a.com/x", ModuleEntry.mk "modA" (HandlerSpec.onPost "modA")),
      ("c.com/z", ModuleEntry.mk "modC" (HandlerSpec.onPost "modC"))]
    (by decide)
  refine ⟨?_, h.2.2.2⟩
  rw [h.1]
  decide

end ApexWeb
